import Mathlib

set_option maxHeartbeats 1000000
set_option maxRecDepth 10000
set_option linter.unnecessarySimpa false

/-!
Shallow embedding of the document ingestion and retrieval pipeline of the
Legal-AI-Suite backend (src/server): the chunker and embedding client from
ai_service.py, the Pinecone vector index wrapper from vector_db.py, the
Celery tasks from tasks.py and the chat route from routes_documents.py.
External collaborators (the PDF reader, the AI providers, the Pinecone
service, PostgreSQL) are modelled as explicit oracles and state passed to
the embedded functions.  Machine floats only ever appear here as exact
values (the all-zero sentinel), so embedding coordinates are modelled as
rationals.
-/

/-- Accumulator loop of the Python `text.split()` model: walk the
characters, collecting maximal whitespace-free runs. -/
def wordsAux : List Char → List Char → List String
  | [], cur => if cur = [] then [] else [String.mk cur.reverse]
  | c :: rest, cur =>
    if c.isWhitespace then
      if cur = [] then wordsAux rest [] else String.mk cur.reverse :: wordsAux rest []
    else wordsAux rest (c :: cur)

/-- Python `text.split()` with no arguments: split on whitespace runs and
drop the empty pieces. -/
def pySplit (text : String) : List String := wordsAux text.data []

/-- Loop of `chunk_text` (ai_service.py, lines 497-509):
`for i in range(0, len(words), step): chunk = words[i:i+size]; append;
if i + size >= len(words): break`, where `step = chunk_size - overlap`.
The first argument is fuel; `ws.length` fuel is always enough when
`1 ≤ size` (each iteration either terminates or advances `i` by
`step ≥ 1`), so the fuel-exhaustion branch is unreachable in the uses
below. -/
def chunkLoop (ws : List String) (size step : Nat) : Nat → Nat → List (List String)
  | 0, _ => []
  | fuel+1, i =>
    if i < ws.length then
      let c := (ws.drop i).take size
      if ws.length ≤ i + size then [c]
      else c :: chunkLoop ws size step fuel (i + step)
    else []

/-- The word windows produced by `chunk_text` before joining with spaces. -/
def chunkWindows (ws : List String) (size overlap : Nat) : List (List String) :=
  chunkLoop ws size (size - overlap) ws.length 0

/-- `chunk_text` (ai_service.py, lines 497-509): split on whitespace, emit
overlapping word windows joined back with single spaces. -/
def chunk_text (text : String) (size overlap : Nat) : List String :=
  (chunkWindows (pySplit text) size overlap).map (fun c => String.intercalate " " c)

/-- Metadata attached to every vector at upsert time (vector_db.py,
lines 66-72). -/
structure VecMeta where
  doc_id : String
  firm_id : String
  chunk_index : Nat
  text : String
  deriving DecidableEq

/-- A vector entry of the Pinecone index.  The source builds the id as the
f-string `{doc_id}_chunk_{chunk_index}`; that format is injective in the
pair, so the id is modelled as the pair itself. -/
structure PVec where
  id : String × Nat
  values : List ℚ
  metadata : VecMeta
  deriving DecidableEq

/-- The metadata filter built by `search_similar_chunks` and
`delete_document_vectors`: equality constraints on firm_id and doc_id. -/
structure QueryFilter where
  firm_id : Option String
  doc_id : Option String

/-- Pinecone filter semantics: a vector matches when every constrained
metadata field is equal to the requested value. -/
def matchesFilter (f : QueryFilter) (v : PVec) : Bool :=
  (match f.firm_id with
   | some x => v.metadata.firm_id = x
   | none => true)
  && (match f.doc_id with
      | some d => v.metadata.doc_id = d
      | none => true)

/-- Insert a vector into a list kept in descending score order. -/
def insertRanked (score : PVec → ℚ) (v : PVec) : List PVec → List PVec
  | [] => [v]
  | w :: ws => if score w < score v then v :: w :: ws else w :: insertRanked score v ws

/-- Rank a list of vectors by descending score (the index's cosine
similarity against the query embedding is abstracted as `score`). -/
def rankByScore (score : PVec → ℚ) (l : List PVec) : List PVec :=
  l.foldr (insertRanked score) []

/-- Semantics of `index.query(vector, filter, top_k, ...)`: the matching
vectors, ranked by score, truncated to at most `top_k` results. -/
def pineconeQuery (idx : List PVec) (score : PVec → ℚ) (f : QueryFilter)
    (topK : Nat) : List PVec :=
  ((idx.filter (matchesFilter f)).foldr (insertRanked score) []).take topK

/-- A chunk as returned by `search_similar_chunks` (vector_db.py,
lines 114-122). -/
structure RetrChunk where
  doc_id : String
  chunk_index : Nat
  text : String
  score : ℚ
  metadata : VecMeta
  deriving DecidableEq

/-- `search_similar_chunks` (vector_db.py, lines 93-128).  `indexUp` models
the `if not index` guard (Pinecone unavailable / unconfigured); `score`
abstracts the index's cosine ranking against the query embedding.  The
firm_id filter is always present; the doc_id filter is added only when a
truthy (non-empty) doc_id is supplied, mirroring `if doc_id:`. -/
def search_similar_chunks (idx : List PVec) (score : PVec → ℚ)
    (firm_id : String) (topK : Nat) (doc_id : Option String)
    (indexUp : Bool) : List RetrChunk :=
  if !indexUp then []
  else
    let f : QueryFilter :=
      { firm_id := some firm_id
        doc_id := match doc_id with
                  | some d => if d = "" then none else some d
                  | none => none }
    (pineconeQuery idx score f topK).map (fun m =>
      { doc_id := m.metadata.doc_id
        chunk_index := m.metadata.chunk_index
        text := m.metadata.text
        score := score m
        metadata := m.metadata })

/-- One Pinecone upsert: replace the vector with the same id, or append. -/
def upsertOne (idx : List PVec) (v : PVec) : List PVec :=
  if idx.any (fun w => w.id = v.id) then
    idx.map (fun w => if w.id = v.id then v else w)
  else idx ++ [v]

/-- The vectors built by `upsert_document_vectors` (vector_db.py,
lines 62-78): chunks paired positionally with embeddings, ids
`(doc_id, i)`, metadata with the first 1000 characters of the chunk. -/
def buildVectors (doc_id firm_id : String) (chunks : List String)
    (embeddings : List (List ℚ)) : List PVec :=
  (chunks.zip embeddings).enum.map (fun p =>
    { id := (doc_id, p.1)
      values := p.2.2
      metadata := { doc_id := doc_id, firm_id := firm_id, chunk_index := p.1
                    text := p.2.1.take 1000 } })

/-- `upsert_document_vectors` (vector_db.py, lines 55-91).  The source
upserts in batches of 100; the final index state equals the sequential
fold over all vectors, which is what is modelled. -/
def upsert_document_vectors (doc_id firm_id : String) (chunks : List String)
    (embeddings : List (List ℚ)) (idx : List PVec) : List PVec :=
  (buildVectors doc_id firm_id chunks embeddings).foldl upsertOne idx

/-- `delete_document_vectors` (vector_db.py, lines 130-154): query with a
dummy all-zero vector, filter on doc_id, `top_k=10000`, then delete the
returned ids. -/
def delete_document_vectors (score : PVec → ℚ) (doc_id : String)
    (idx : List PVec) : List PVec :=
  let results := pineconeQuery idx score { firm_id := none, doc_id := some doc_id } 10000
  let ids := results.map (fun m => m.id)
  idx.filter (fun v => decide (v.id ∉ ids))

/-- `generate_embeddings` (ai_service.py, lines 455-495).  The provider
call is an oracle: `.ok e` is a successful response with embedding `e`,
`.error _` is any raised exception (network, bad status, malformed
response).  `openaiConfigured` models `openai_client` being non-None,
`openrouterKey` models `OPENROUTER_API_KEY` being set.  Every branch
returns a plain list: a successful call's embedding, `[]` on a caught
exception, and the 1536-zero sentinel when no embeddings endpoint exists
for the active provider. -/
def generate_embeddings (activeProvider : String) (openaiConfigured openrouterKey : Bool)
    (openaiCall openrouterCall : Except String (List ℚ)) : List ℚ :=
  if activeProvider = "openai" ∧ openaiConfigured then
    match openaiCall with
    | .ok e => e
    | .error _ => []
  else if activeProvider = "openrouter" ∧ openrouterKey then
    match openrouterCall with
    | .ok e => e
    | .error _ => []
  else
    List.replicate 1536 (0 : ℚ)

/-- Backtick character, kept as a named constant. -/
def btick : Char := Char.ofNat 96

/-- Double-quote character. -/
def dquote : Char := Char.ofNat 34

/-- Opening curly-brace character. -/
def lcurly : Char := Char.ofNat 123

/-- Closing curly-brace character. -/
def rcurly : Char := Char.ofNat 125

/-- Whitespace test used by the Python `str.strip()` / `str.split()`
models. -/
def isWsChar (c : Char) : Bool := c.isWhitespace

/-- Does `sep` occur at the head of `l`? -/
def begins : List Char → List Char → Bool
  | [], _ => true
  | _ :: _, [] => false
  | a :: as, b :: bs => if a = b then begins as bs else false

/-- Scanner for Python `str.split(sep)` over character lists: walk the
string left to right, emitting a token at each non-overlapping occurrence
of `sep`.  Fuel `l.length + 1` always suffices (each step consumes at
least one character). -/
def splitGo (sep : List Char) : Nat → List Char → List Char → List (List Char)
  | 0, _, cur => [cur.reverse]
  | fuel+1, l, cur =>
    match l with
    | [] => [cur.reverse]
    | c :: rest =>
      if begins sep (c :: rest) then
        cur.reverse :: splitGo sep fuel ((c :: rest).drop sep.length) []
      else splitGo sep fuel rest (c :: cur)

/-- Python `content.split(sep)` for a non-empty separator string. -/
def splitOnL (l sep : List Char) : List (List Char) :=
  if sep = [] then [l] else splitGo sep (l.length + 1) l []

/-- Python `str.strip()`: drop whitespace from both ends. -/
def stripChars (l : List Char) : List Char :=
  ((l.dropWhile isWsChar).reverse.dropWhile isWsChar).reverse

/-- JSON values, as produced by `json.loads`. -/
inductive JVal where
  | null : JVal
  | bool (b : Bool) : JVal
  | num (n : Int) : JVal
  | str (s : List Char) : JVal
  | arr (elems : List JVal) : JVal
  | obj (fields : List (List Char × JVal)) : JVal

/-- Keyword character lists for the JSON literal tokens. -/
def nullKw : List Char := "null".toList

/-- Characters of the JSON `true` token. -/
def trueKw : List Char := "true".toList

/-- Characters of the JSON `false` token. -/
def falseKw : List Char := "false".toList

/-- Parse a fixed keyword. -/
def parseKw (kw : List Char) (v : JVal) (l : List Char) : Option (JVal × List Char) :=
  if begins kw l then some (v, l.drop kw.length) else none

/-- Parse the body of a JSON string literal (escape-free subset), after the
opening quote. -/
def parseStrLit (l : List Char) : Option (List Char × List Char) :=
  let s := l.takeWhile (fun c => c ≠ dquote)
  match l.drop s.length with
  | c :: rest => if c = dquote then some (s, rest) else none
  | [] => none

/-- Digit run to a natural number. -/
def digitsVal (ds : List Char) : Nat :=
  ds.foldl (fun a c => a * 10 + (c.toNat - 48)) 0

/-- Parse a JSON integer (subset: optional minus sign, digit run). -/
def parseNumTok (l : List Char) : Option (JVal × List Char) :=
  let neg := begins ['-'] l
  let l' := if neg then l.drop 1 else l
  let ds := l'.takeWhile Char.isDigit
  if ds = [] then none
  else some (JVal.num (if neg then -(digitsVal ds : Int) else (digitsVal ds : Int)),
             l'.drop ds.length)

mutual

/-- Recursive-descent model of `json.loads` on the escape-free,
integer-numeral JSON subset: value parser.  Returns the parsed value and
the unconsumed remainder; fuel bounds nesting and always suffices for the
concrete inputs evaluated in this file. -/
def parseJ : Nat → List Char → Option (JVal × List Char)
  | 0, _ => none
  | fuel+1, l0 =>
    let l := l0.dropWhile isWsChar
    (parseKw nullKw JVal.null l).orElse (fun _ =>
    (parseKw trueKw (JVal.bool true) l).orElse (fun _ =>
    (parseKw falseKw (JVal.bool false) l).orElse (fun _ =>
      match l with
      | [] => none
      | c :: rest =>
        if c = dquote then (parseStrLit rest).map (fun p => (JVal.str p.1, p.2))
        else if c = lcurly then
          let r := rest.dropWhile isWsChar
          match r with
          | c2 :: r2 => if c2 = rcurly then some (JVal.obj [], r2)
                        else (parseMembers fuel r).map (fun p => (JVal.obj p.1, p.2))
          | [] => none
        else if c = '[' then
          let r := rest.dropWhile isWsChar
          match r with
          | c2 :: r2 => if c2 = ']' then some (JVal.arr [], r2)
                        else (parseElems fuel r).map (fun p => (JVal.arr p.1, p.2))
          | [] => none
        else parseNumTok l)))

/-- Array elements: `value (, value)* ]`. -/
def parseElems : Nat → List Char → Option (List JVal × List Char)
  | 0, _ => none
  | fuel+1, l =>
    match parseJ fuel l with
    | none => none
    | some (v, r) =>
      match r.dropWhile isWsChar with
      | c :: r' =>
        if c = ',' then (parseElems fuel r').map (fun p => (v :: p.1, p.2))
        else if c = ']' then some ([v], r')
        else none
      | [] => none

/-- Object members: `"key" : value (, "key" : value)* closing-brace`. -/
def parseMembers : Nat → List Char → Option (List (List Char × JVal) × List Char)
  | 0, _ => none
  | fuel+1, l =>
    match l.dropWhile isWsChar with
    | c :: rest =>
      if c = dquote then
        match parseStrLit rest with
        | some (k, r) =>
          match r.dropWhile isWsChar with
          | c2 :: r2 =>
            if c2 = ':' then
              match parseJ fuel r2 with
              | some (v, r3) =>
                match r3.dropWhile isWsChar with
                | c3 :: r4 =>
                  if c3 = ',' then (parseMembers fuel r4).map (fun p => ((k, v) :: p.1, p.2))
                  else if c3 = rcurly then some ([(k, v)], r4)
                  else none
                | [] => none
              | none => none
            else none
          | [] => none
        | none => none
      else none
    | [] => none

end

/-- `json.loads(content)`: parse a full document, requiring only trailing
whitespace after the value. -/
def jsonLoads (content : List Char) : Option JVal :=
  match parseJ (content.length + 1) content with
  | some (v, r) => if r.dropWhile isWsChar = [] then some v else none
  | none => none

/-- Characters of the fenced-block marker with language tag. -/
def fenceJson : List Char := "```json".toList

/-- Characters of the bare fence marker. -/
def fence : List Char := "```".toList

/-- Result of `_parse_json_response` (ai_service.py, lines 211-222):
either the parsed JSON, or a failure carrying the first 200 characters of
the (possibly fence-stripped) content. -/
inductive ParseOut where
  | ok (j : JVal) : ParseOut
  | fail (raw : List Char) : ParseOut

/-- `_parse_json_response` (ai_service.py, lines 211-222), with the JSON
parser abstracted: if the content contains the marker three-backticks-json,
take what follows the first such marker up to the next fence and strip it;
otherwise if it contains a bare fence, take the segment between the first
two fences and strip it; then parse.  On parse failure the error carries
`content[:200]` where `content` is the fence-stripped text, as in the
source (the variable is reassigned before `json.loads` runs). -/
def parseJsonResponse (parse : List Char → Option JVal) (content : List Char) : ParseOut :=
  let inner :=
    match splitOnL content fenceJson with
    | _ :: x :: _ => stripChars ((splitOnL x fence).headD [])
    | _ =>
      match splitOnL content fence with
      | _ :: y :: _ => stripChars ((splitOnL y fence).headD [])
      | _ => content
  match parse inner with
  | some j => ParseOut.ok j
  | none => ParseOut.fail (inner.take 200)

/-- The markdown-fenced wrapping of a JSON payload. -/
def wrapFenced (p : List Char) : List Char :=
  fenceJson ++ '\n' :: (p ++ '\n' :: fence)

/-- A successful or failed completion-provider response as returned by
`_call_ai_provider` (ai_service.py, lines 187-209). -/
structure ProviderResp where
  success : Bool
  content : List Char := []
  tokens_used : Nat := 0
  error : Option String := none

/-- Result dict of `generate_summary` (ai_service.py, lines 227-279). -/
structure SummaryOut where
  success : Bool
  summary : Option JVal := none
  tokens_used : Nat := 0
  error : Option String := none
  raw_content : Option (List Char) := none

/-- Result dict of `extract_clauses` (ai_service.py, lines 281-338).  It
has no raw-content key. -/
structure ClausesOut where
  success : Bool
  clauses : List JVal := []
  tokens_used : Nat := 0
  error : Option String := none

/-- Result dict of `extract_facts` (ai_service.py, lines 390-453).  It has
no raw-content key. -/
structure FactsOut where
  success : Bool
  facts : Option JVal := none
  tokens_used : Nat := 0
  error : Option String := none

/-- Python `result.get(key, default)` restricted to the shape
`extract_clauses` reads: the "clauses" key of a JSON object, defaulting to
an empty list.  (On a non-object or non-list value the Python code would
fail later when iterating; those shapes are not exercised here.) -/
def jGetClauses (j : JVal) : List JVal :=
  match j with
  | JVal.obj kvs =>
    match (kvs.find? (fun kv => decide (kv.1 = "clauses".toList))).map (fun kv => kv.2) with
    | some (JVal.arr xs) => xs
    | _ => []
  | _ => []

/-- Post-processing of `generate_summary` (ai_service.py, lines 256-279):
recover JSON through `_parse_json_response`; on parse failure report an
error together with the truncated raw content. -/
def generate_summary (parse : List Char → Option JVal) (resp : ProviderResp) : SummaryOut :=
  if resp.success then
    match parseJsonResponse parse resp.content with
    | ParseOut.ok j =>
      { success := true, summary := some j, tokens_used := resp.tokens_used }
    | ParseOut.fail raw =>
      { success := false, error := some "Invalid JSON", raw_content := some raw }
  else { success := false, error := resp.error }

/-- Post-processing of `extract_clauses` (ai_service.py, lines 316-338):
the content is fed to `json.loads` directly, without
`_parse_json_response`; the failure dict carries no raw content. -/
def extract_clauses (parse : List Char → Option JVal) (resp : ProviderResp) : ClausesOut :=
  if resp.success then
    match parse resp.content with
    | some j =>
      { success := true, clauses := jGetClauses j, tokens_used := resp.tokens_used }
    | none => { success := false, error := some "Invalid JSON response" }
  else { success := false, error := resp.error }

/-- Post-processing of `extract_facts` (ai_service.py, lines 431-453):
recovery through `_parse_json_response`, but the failure dict drops the
raw content. -/
def extract_facts (parse : List Char → Option JVal) (resp : ProviderResp) : FactsOut :=
  if resp.success then
    match parseJsonResponse parse resp.content with
    | ParseOut.ok j =>
      { success := true, facts := some j, tokens_used := resp.tokens_used }
    | ParseOut.fail _ => { success := false, error := some "Invalid JSON" }
  else { success := false, error := resp.error }

/-- Oracle inputs of one run of `process_document_task` (tasks.py,
lines 26-150): the PDF extraction outcome (`.error` = an exception raised
while opening/reading the file), the three AI extraction results as
returned by `generate_summary` / `extract_clauses` / `extract_facts`, the
embedding client as a function of the chunk text, and `unexpected`, which
models an exception raised by any collaborator call after text extraction
has been persisted (caught by the task's top-level handler). -/
structure PipelineEnv where
  pdfPages : Except String (List (Option String))
  summaryR : SummaryOut
  clausesR : ClausesOut
  factsR : FactsOut
  embed : String → List ℚ
  unexpected : Option String := none

/-- One effect of the task on its collaborators.  Artifact payloads that no
claim refers to (the JSON dumps stored in the summary/clause/fact rows)
are not carried; a clause row is identified by its position in the
extraction result. -/
inductive DBWrite where
  | statusUpdate (status : String) (text : Option String) : DBWrite
  | summaryRow (tokens : Nat) : DBWrite
  | clauseRow (i : Nat) : DBWrite
  | factRow : DBWrite
  | chunkRow (idx : Nat) (text : String) (tokens : Nat) : DBWrite
  | embeddingRow (idx : Nat) (vectorId : String × Nat) : DBWrite
  | vectorUpsert (doc_id firm_id : String) (chunks : List String)
      (embeddings : List (List ℚ)) : DBWrite
  | usageBump (metric : String) (amount : Nat) : DBWrite
  | auditLog (action : String) : DBWrite
  deriving DecidableEq

/-- Return dict of `process_document_task`. -/
structure TaskResult where
  success : Bool
  error : Option String := none
  chunks_count : Nat := 0
  embeddings_count : Nat := 0
  deriving DecidableEq

/-- `text_content` accumulation of tasks.py lines 41-46:
`text_content += page.extract_text() or ""`. -/
def extractedText (pages : List (Option String)) : String :=
  pages.foldl (fun acc p => acc ++ p.getD "") ""

/-- `process_document_task` (tasks.py, lines 26-150), as the sequence of
collaborator writes plus the returned dict. -/
def process_document_task (doc_id firm_id : String) (env : PipelineEnv) :
    List DBWrite × TaskResult :=
  let w0 := [DBWrite.statusUpdate "processing" none]
  match env.pdfPages with
  | Except.error e =>
    (w0 ++ [DBWrite.statusUpdate "failed" none],
     { success := false, error := some ("PDF extraction failed: " ++ e) })
  | Except.ok pages =>
    let text := extractedText pages
    if stripChars text.data = [] then
      (w0 ++ [DBWrite.statusUpdate "failed" none],
       { success := false, error := some "No text extracted from PDF" })
    else
      let w1 := w0 ++ [DBWrite.statusUpdate "processing" (some text)]
      match env.unexpected with
      | some e =>
        (w1 ++ [DBWrite.statusUpdate "failed" none],
         { success := false, error := some e })
      | none =>
        let w2 := w1 ++
          (if env.summaryR.success then
            [DBWrite.summaryRow env.summaryR.tokens_used,
             DBWrite.usageBump "ai_tokens" env.summaryR.tokens_used]
          else [])
        let w3 := w2 ++
          (if env.clausesR.success then
            (List.range env.clausesR.clauses.length).map DBWrite.clauseRow
              ++ [DBWrite.usageBump "ai_tokens" env.clausesR.tokens_used]
          else [])
        let w4 := w3 ++
          (if env.factsR.success then
            [DBWrite.factRow, DBWrite.usageBump "ai_tokens" env.factsR.tokens_used]
          else [])
        let chunks := chunk_text text 500 50
        let embeddings := (chunks.map env.embed).filter (fun e => e ≠ [])
        let w5 := w4 ++
          (if embeddings ≠ [] then
            ((chunks.zip embeddings).enum.flatMap (fun p =>
              [DBWrite.chunkRow p.1 p.2.1 (pySplit p.2.1).length,
               DBWrite.embeddingRow p.1 (doc_id, p.1)]))
              ++ [DBWrite.vectorUpsert doc_id firm_id chunks embeddings]
          else [])
        let w6 := w5 ++ [DBWrite.statusUpdate "completed" none,
                         DBWrite.auditLog "document_processed"]
        (w6, { success := true, chunks_count := chunks.length,
               embeddings_count := embeddings.length })

/-- Status carried by a write, if any. -/
def statusOf : DBWrite → Option String
  | DBWrite.statusUpdate s _ => some s
  | _ => none

/-- The document status after a run: the last status update performed. -/
def finalStatus (ws : List DBWrite) : Option String :=
  ws.reverse.findSome? statusOf

/-- Does a write create an artifact row or touch the vector index? -/
def isArtifactWrite : DBWrite → Bool
  | DBWrite.summaryRow _ => true
  | DBWrite.clauseRow _ => true
  | DBWrite.factRow => true
  | DBWrite.chunkRow _ _ _ => true
  | DBWrite.embeddingRow _ _ => true
  | DBWrite.vectorUpsert _ _ _ _ => true
  | _ => false

/-- A chunk row as stored by the tasks (uuid primary keys are opaque fresh
values and are not modelled; a row is identified by document and index). -/
structure ChunkRow where
  document_id : String
  chunk_index : Nat
  chunk_text : String
  token_count : Nat
  deriving DecidableEq

/-- An embedding-reference row: chunk to external vector id. -/
structure EmbedRow where
  document_id : String
  chunk_index : Nat
  external_vector_id : String × Nat
  deriving DecidableEq

/-- The stores touched by `regenerate_embeddings_task`: the vector index
and the chunks / embeddings tables. -/
structure DBState where
  index : List PVec
  chunks : List ChunkRow
  embeds : List EmbedRow
  deriving DecidableEq

/-- Return dict of `regenerate_embeddings_task`. -/
structure RegenResult where
  success : Bool
  error : Option String := none
  chunks_count : Nat := 0
  deriving DecidableEq

/-- The chunk rows inserted by `regenerate_embeddings_task` (tasks.py,
lines 178-186): one row per chunk whose embedding is non-empty, indexed by
its position in the full chunk list. -/
def regenChunkRows (doc_id : String) (chunks : List String)
    (embeddings : List (List ℚ)) : List ChunkRow :=
  (chunks.zip embeddings).enum.filterMap (fun p =>
    if p.2.2 ≠ [] then
      some { document_id := doc_id, chunk_index := p.1, chunk_text := p.2.1
             token_count := (pySplit p.2.1).length }
    else none)

/-- The embedding-reference rows inserted by `regenerate_embeddings_task`
(tasks.py, lines 188-194). -/
def regenEmbedRows (doc_id : String) (chunks : List String)
    (embeddings : List (List ℚ)) : List EmbedRow :=
  (chunks.zip embeddings).enum.filterMap (fun p =>
    if p.2.2 ≠ [] then
      some { document_id := doc_id, chunk_index := p.1
             external_vector_id := (doc_id, p.1) }
    else none)

/-- `regenerate_embeddings_task` (tasks.py, lines 152-202): look up the
document (`doc` is `none` when missing; the pair is firm_id and stored
text_content, the text empty when absent), delete the document's vectors
and its chunk/embedding rows, re-chunk the stored text, re-embed, insert
rows for chunks with non-empty embeddings, and upsert all chunk/embedding
pairs to the index. -/
def regenerate_embeddings_task (doc_id : String) (doc : Option (String × String))
    (embed : String → List ℚ) (score : PVec → ℚ) (st : DBState) :
    DBState × RegenResult :=
  match doc with
  | none => (st, { success := false, error := some "Document not found or no text content" })
  | some (firm_id, text) =>
    if text = "" then
      (st, { success := false, error := some "Document not found or no text content" })
    else
      let idx1 := delete_document_vectors score doc_id st.index
      let embeds1 := st.embeds.filter (fun r => r.document_id ≠ doc_id)
      let chunks1 := st.chunks.filter (fun r => r.document_id ≠ doc_id)
      let chunks := chunk_text text 500 50
      let embeddings := chunks.map embed
      let idx2 := upsert_document_vectors doc_id firm_id chunks embeddings idx1
      ({ index := idx2
         chunks := chunks1 ++ regenChunkRows doc_id chunks embeddings
         embeds := embeds1 ++ regenEmbedRows doc_id chunks embeddings },
       { success := true, chunks_count := chunks.length })

/-- Answer dict of `chat_with_context` (ai_service.py, lines 511-547). -/
structure ChatAnswer where
  success : Bool
  answer : String
  tokens_used : Nat := 0
  error : Option String := none
  deriving DecidableEq

/-- The fixed reply the system prompt demands when the answer is not found
in the supplied context (ai_service.py, line 517, rule 1). -/
def noInfoAnswer : String :=
  "I don't have enough information in this document to answer that question."

/-- `chat_with_context` (ai_service.py, lines 511-547): the completion
provider is the oracle `completion`, a function of question and assembled
context. -/
def chat_with_context (completion : String → String → ProviderResp)
    (question context : String) : ChatAnswer :=
  let resp := completion question context
  if resp.success then
    { success := true, answer := String.mk resp.content, tokens_used := resp.tokens_used }
  else
    { success := false, answer := "Sorry, I encountered an error processing your question."
      error := resp.error }

/-- Context assembly of the chat route (routes_documents.py, line 225):
`"\n\n".join(chunk['text'] for chunk in similar_chunks)`. -/
def buildContext (chunksFound : List RetrChunk) : String :=
  String.intercalate "\n\n" (chunksFound.map (fun c => c.text))

/-- HTTP-level outcome of the chat route: an HTTPException with a status
code, or the response body (answer plus sources). -/
structure ChatOut where
  answer : String
  sources : List RetrChunk
  tokens_used : Nat
  deriving DecidableEq

/-- Environment of `chat_with_document` (routes_documents.py,
lines 202-259): the stored document record (owning firm), the vector
index with its ranking oracle and availability flag, and the completion
provider. -/
structure ChatEnv where
  doc : Option (String × String)
  idx : List PVec
  score : PVec → ℚ
  indexUp : Bool
  completion : String → String → ProviderResp

/-- `chat_with_document` (routes_documents.py, lines 202-259): 404 when
the document is missing or owned by another firm, retrieval scoped to the
user's firm and the requested document, context assembly, completion, and
500 when the completion fails.  Chat-history and usage writes do not
affect the claims settled here and are not tracked. -/
def chat_with_document (env : ChatEnv) (userFirm document_id question : String) :
    Except Nat ChatOut :=
  match env.doc with
  | none => Except.error 404
  | some (docFirm, _) =>
    if docFirm ≠ userFirm then Except.error 404
    else
      let chunksFound := search_similar_chunks env.idx env.score userFirm 5
        (some document_id) env.indexUp
      let context := buildContext chunksFound
      let resp := chat_with_context env.completion question context
      if resp.success then
        Except.ok { answer := resp.answer, sources := chunksFound
                    tokens_used := resp.tokens_used }
      else Except.error 500

/-- Scoring oracle that ranks by ascending chunk index (a strictly
descending score along `bigIdx`), used to pin down the delete query's
ranking on the oversized index. -/
def scoreIdx : PVec → ℚ := fun v => -(v.metadata.chunk_index : ℚ)

/-- Constant scoring oracle for witnesses in which ranking is irrelevant. -/
def score0 : PVec → ℚ := fun _ => 0

/-- Concrete vector used by retrieval witnesses. -/
def wVec : PVec :=
  { id := ("d", 0), values := [1]
    metadata := { doc_id := "d", firm_id := "f", chunk_index := 0, text := "hello" } }

/-- The 1536-dimensional all-zero sentinel returned by
`generate_embeddings` when the active provider has no embeddings
endpoint. -/
def zeroSentinel : List ℚ := List.replicate 1536 0

/-- A processing run whose provider has no embeddings endpoint: every
embedding call returns the zero sentinel (one one-word page, all AI
extractions failing, no unexpected exception). -/
def envSentinel : PipelineEnv :=
  { pdfPages := Except.ok [some "alpha"]
    summaryR := { success := false }
    clausesR := { success := false }
    factsR := { success := false }
    embed := fun _ => zeroSentinel }

/-- A healthy run environment with all three extractions succeeding. -/
def envHealthy : PipelineEnv :=
  { pdfPages := Except.ok [some "alpha beta"]
    summaryR := { success := true, tokens_used := 7 }
    clausesR := { success := true, clauses := [JVal.null], tokens_used := 3 }
    factsR := { success := true, tokens_used := 2 }
    embed := fun _ => [1] }

/-- A run whose PDF pages contain only whitespace and empty pages. -/
def envEmptyText : PipelineEnv :=
  { pdfPages := Except.ok [some " ", none, some "  "]
    summaryR := { success := true }
    clausesR := { success := true }
    factsR := { success := true }
    embed := fun _ => [1] }

/-- Vector number `i` of the oversized document. -/
def bigVec (i : Nat) : PVec :=
  { id := ("doc", i), values := []
    metadata := { doc_id := "doc", firm_id := "f", chunk_index := i, text := "" } }

/-- An index holding 10001 vectors of one document: one more than the
`top_k` cap of the delete query. -/
def bigIdx : List PVec := (List.range 10001).map bigVec

/-- The empty JSON object, written as characters. -/
def emptyObj : List Char := "\x7b\x7d".toList

/-- Chat environment whose vector index is unconfigured and whose
completion provider follows the context-only system instruction: with an
empty context it answers that it lacks sufficient information. -/
def envChatDown : ChatEnv :=
  { doc := some ("f", "contract.pdf")
    idx := []
    score := score0
    indexUp := false
    completion := fun _ c =>
      if c = "" then { success := true, content := noInfoAnswer.toList, tokens_used := 5 }
      else { success := true, content := ['y'] } }

/-- Empty database state for the regeneration witness. -/
def stEmpty : DBState := { index := [], chunks := [], embeds := [] }

/-- Did text extraction fail or yield no text?  (tasks.py, lines 42-53.) -/
def extractionBad (env : PipelineEnv) : Bool :=
  match env.pdfPages with
  | Except.error _ => true
  | Except.ok pages => stripChars (extractedText pages).data == []

/-- The doc_id-equality test the delete query filters by. -/
def matchesDoc (doc_id : String) (v : PVec) : Bool :=
  decide (v.metadata.doc_id = doc_id)

theorem chunkLoop_oob (ws : List String) (size step fuel i : Nat)
    (h : ws.length ≤ i) : chunkLoop ws size step fuel i = [] := by
  cases fuel with
  | zero => rfl
  | succ f => simp [chunkLoop, Nat.not_lt.mpr h]

theorem chunkLoop_single (ws : List String) (size step fuel i : Nat)
    (hi : i < ws.length) (hl : ws.length ≤ i + size) (hf : 1 ≤ fuel) :
    chunkLoop ws size step fuel i = [(ws.drop i).take size] := by
  match fuel, hf with
  | f+1, _ => simp [chunkLoop, hi, hl]

theorem chunkLoop_cons (ws : List String) (size step fuel i : Nat)
    (hi : i < ws.length) (hl : i + size < ws.length) (hf : 1 ≤ fuel) :
    chunkLoop ws size step fuel i
      = (ws.drop i).take size :: chunkLoop ws size step (fuel - 1) (i + step) := by
  match fuel, hf with
  | f+1, _ => simp [chunkLoop, hi, Nat.not_le.mpr hl]

theorem chunkLoop_get (ws : List String) (size step : Nat) (hs : 1 ≤ step) :
    ∀ fuel i k w, ws.length ≤ i + fuel →
      (chunkLoop ws size step fuel i).get? k = some w →
      w = (ws.drop (i + k * step)).take size := by
  intro fuel
  induction fuel with
  | zero =>
    intro i k w _ hg
    simp [chunkLoop] at hg
  | succ f ih =>
    intro i k w hf hg
    by_cases hi : i < ws.length
    · by_cases hl : ws.length ≤ i + size
      · rw [chunkLoop_single ws size step (f+1) i hi hl (by omega)] at hg
        cases k with
        | zero =>
          simp at hg
          simpa using hg.symm
        | succ k => simp at hg
      · rw [chunkLoop_cons ws size step (f+1) i hi (Nat.not_le.mp hl) (by omega)] at hg
        cases k with
        | zero =>
          simp at hg
          simpa using hg.symm
        | succ k =>
          rw [List.get?_cons_succ] at hg
          have := ih (i + step) k w (by omega) (by simpa using hg)
          rw [this]
          congr 1
          ring_nf
    · rw [chunkLoop_oob ws size step (f+1) i (Nat.not_lt.mp hi)] at hg
      simp at hg

theorem chunkLoop_next_full (ws : List String) (size step : Nat) (hs : 1 ≤ step) :
    ∀ fuel i k w, ws.length ≤ i + fuel →
      (chunkLoop ws size step fuel i).get? (k+1) = some w →
      i + k * step + size < ws.length := by
  intro fuel
  induction fuel with
  | zero =>
    intro i k w _ hg
    simp [chunkLoop] at hg
  | succ f ih =>
    intro i k w hf hg
    by_cases hi : i < ws.length
    · by_cases hl : ws.length ≤ i + size
      · rw [chunkLoop_single ws size step (f+1) i hi hl (by omega)] at hg
        simp at hg
      · have hl' := Nat.not_le.mp hl
        rw [chunkLoop_cons ws size step (f+1) i hi hl' (by omega),
          List.get?_cons_succ] at hg
        cases k with
        | zero =>
          simp only [Nat.zero_mul, Nat.add_zero]
          exact hl'
        | succ k =>
          have h1 := ih (i + step) k w (by omega) (by simpa using hg)
          have h2 : (k + 1) * step = k * step + step := by ring
          omega
    · rw [chunkLoop_oob ws size step (f+1) i (Nat.not_lt.mp hi)] at hg
      simp at hg

theorem chunkWindows_get (ws : List String) (size overlap : Nat)
    (h : overlap < size) (k : Nat) (w : List String)
    (hg : (chunkWindows ws size overlap).get? k = some w) :
    w = (ws.drop (k * (size - overlap))).take size := by
  have := chunkLoop_get ws size (size - overlap) (by omega) ws.length 0 k w
    (by omega) hg
  simpa using this

theorem chunkWindows_next_full (ws : List String) (size overlap : Nat)
    (h : overlap < size) (k : Nat) (w : List String)
    (hg : (chunkWindows ws size overlap).get? (k+1) = some w) :
    k * (size - overlap) + size < ws.length := by
  have := chunkLoop_next_full ws size (size - overlap) (by omega) ws.length 0 k w
    (by omega) hg
  simpa using this

theorem chunkWindows_nil_iff (ws : List String) (size overlap : Nat) :
    chunkWindows ws size overlap = [] ↔ ws = [] := by
  constructor
  · intro he
    by_contra hne
    have hlen : 0 < ws.length := List.length_pos.mpr hne
    unfold chunkWindows at he
    by_cases hl : ws.length ≤ 0 + size
    · rw [chunkLoop_single ws size (size - overlap) ws.length 0 hlen hl hlen] at he
      simp at he
    · rw [chunkLoop_cons ws size (size - overlap) ws.length 0 hlen
        (by omega) hlen] at he
      simp at he
  · intro he
    subst he
    rfl

theorem chunkWindows_single (ws : List String) (size overlap : Nat)
    (hne : ws ≠ []) (hle : ws.length ≤ size) :
    chunkWindows ws size overlap = [ws.take size] := by
  have hlen : 0 < ws.length := List.length_pos.mpr hne
  unfold chunkWindows
  rw [chunkLoop_single ws size (size - overlap) ws.length 0 hlen (by omega) hlen]
  simp

theorem mem_insertRanked (score : PVec → ℚ) (v : PVec) (l : List PVec) (a : PVec) :
    a ∈ insertRanked score v l ↔ a = v ∨ a ∈ l := by
  induction l with
  | nil => simp [insertRanked]
  | cons w ws ih =>
    by_cases hc : score w < score v
    · simp [insertRanked, hc]
    · simp [insertRanked, hc, ih]
      tauto

theorem length_insertRanked (score : PVec → ℚ) (v : PVec) (l : List PVec) :
    (insertRanked score v l).length = l.length + 1 := by
  induction l with
  | nil => rfl
  | cons w ws ih =>
    by_cases hc : score w < score v
    · simp [insertRanked, hc]
    · simp [insertRanked, hc, ih]

theorem mem_rankByScore (score : PVec → ℚ) (l : List PVec) (a : PVec) :
    a ∈ rankByScore score l ↔ a ∈ l := by
  induction l with
  | nil => simp [rankByScore]
  | cons w ws ih =>
    simp only [rankByScore, List.foldr_cons] at *
    rw [mem_insertRanked, ih]
    simp

theorem length_rankByScore (score : PVec → ℚ) (l : List PVec) :
    (rankByScore score l).length = l.length := by
  induction l with
  | nil => rfl
  | cons w ws ih =>
    simp only [rankByScore, List.foldr_cons] at *
    rw [length_insertRanked, ih, List.length_cons]

theorem mem_pineconeQuery (idx : List PVec) (score : PVec → ℚ)
    (f : QueryFilter) (topK : Nat) (a : PVec)
    (ha : a ∈ pineconeQuery idx score f topK) :
    a ∈ idx ∧ matchesFilter f a = true := by
  have h1 : a ∈ rankByScore score (idx.filter (matchesFilter f)) :=
    List.mem_of_mem_take ha
  rw [mem_rankByScore] at h1
  exact ⟨List.mem_of_mem_filter h1, List.of_mem_filter h1⟩

theorem begins_append (s r : List Char) : begins s (s ++ r) = true := by
  induction s with
  | nil => rfl
  | cons a as ih => simp [begins, ih]

theorem begins_false_of_short (s l : List Char) (h : l.length < s.length) :
    begins s l = false := by
  induction s generalizing l with
  | nil => simp at h
  | cons a as ih =>
    cases l with
    | nil => rfl
    | cons b bs =>
      simp only [begins]
      by_cases hab : a = b
      · simp only [if_pos hab]
        exact ih bs (by simpa using h)
      · simp [hab]

theorem begins_false_of_head_ne (a : Char) (as : List Char) (b : Char)
    (bs : List Char) (h : a ≠ b) : begins (a :: as) (b :: bs) = false := by
  simp [begins, h]

/-- No occurrence of `sep` starts at any position of `a ++ t` when `sep`
starts with a backtick, `a` is backtick-free, and `t` is shorter than
`sep`. -/
theorem no_occ_append (s' : List Char) (a t : List Char)
    (ha : btick ∉ a) (ht : t.length < (btick :: s').length) :
    ∀ i, begins (btick :: s') ((a ++ t).drop i) = false := by
  induction a with
  | nil =>
    intro i
    simp only [List.nil_append]
    exact begins_false_of_short _ _ (lt_of_le_of_lt (by simpa using (List.drop_sublist i t).length_le) ht)
  | cons c a' ih =>
    intro i
    cases i with
    | zero =>
      simp only [List.drop_zero, List.cons_append]
      exact begins_false_of_head_ne _ _ _ _ (fun he => ha (by simp [← he]))
    | succ i =>
      simp only [List.cons_append, List.drop_succ_cons]
      exact ih (fun hc => ha (List.mem_cons_of_mem _ hc)) i

theorem splitGo_no_occ (sep : List Char) :
    ∀ fuel l cur, l.length < fuel →
      (∀ i, begins sep (l.drop i) = false) →
      splitGo sep fuel l cur = [cur.reverse ++ l] := by
  intro fuel
  induction fuel with
  | zero =>
    intro l cur h _
    omega
  | succ f ih =>
    intro l cur h hno
    cases l with
    | nil => simp [splitGo]
    | cons c rest =>
      have h0 := hno 0
      simp only [List.drop_zero] at h0
      simp only [splitGo, h0, Bool.false_eq_true, if_false]
      rw [ih rest (c :: cur) (by simpa using h) (fun i => by simpa using hno (i+1))]
      simp

theorem splitGo_nil (sep : List Char) (fuel : Nat) :
    splitGo sep fuel [] [] = [[]] := by
  cases fuel <;> rfl

/-- Splitting `body ++ sep` at a backtick-headed separator when the body is
backtick-free: one token for the body and one empty trailing token. -/
theorem splitGo_body_fence (s' : List Char) :
    ∀ fuel body cur, (body ++ btick :: s').length < fuel → btick ∉ body →
      splitGo (btick :: s') fuel (body ++ btick :: s') cur
        = [cur.reverse ++ body, []] := by
  intro fuel
  induction fuel with
  | zero =>
    intro body cur h _
    omega
  | succ f ih =>
    intro body cur h hb
    cases body with
    | nil =>
      simp only [List.nil_append]
      have hbeg : begins (btick :: s') (btick :: s') = true := by
        have := begins_append (btick :: s') []
        simpa using this
      simp only [splitGo, hbeg, if_pos rfl]
      rw [show (btick :: s').drop (btick :: s').length = [] from
        by simp [List.drop_eq_nil_iff]]
      rw [splitGo_nil]
      simp
    | cons c body' =>
      have hc : btick ≠ c := fun he => hb (by simp [he])
      simp only [List.cons_append, splitGo,
        begins_false_of_head_ne _ _ _ _ hc, Bool.false_eq_true, if_false]
      rw [ih body' (c :: cur) (by simpa using h) (fun hm => hb (List.mem_cons_of_mem _ hm))]
      simp

theorem fenceJson_eq : fenceJson = btick :: "``json".toList := by decide

theorem fence_eq : fence = btick :: "``".toList := by decide

/-- Splitting a backtick-free payload at either fence marker yields a
single token. -/
theorem splitOnL_no_btick (p : List Char) (s' : List Char) (hb : btick ∉ p) :
    splitOnL p (btick :: s') = [p] := by
  unfold splitOnL
  rw [if_neg (by simp)]
  rw [splitGo_no_occ _ _ _ _ (by omega)
    (by
      have := no_occ_append s' p [] hb (by simp)
      simpa using this)]
  simp

theorem stripChars_fix_parts (p : List Char) (hs : stripChars p = p) :
    p.dropWhile isWsChar = p ∧ p.reverse.dropWhile isWsChar = p.reverse := by
  have hlen1 : (p.dropWhile isWsChar).length ≤ p.length :=
    (List.dropWhile_sublist _).length_le
  have hlen2 : ((p.dropWhile isWsChar).reverse.dropWhile isWsChar).length
      ≤ (p.dropWhile isWsChar).length := by
    have := (List.dropWhile_sublist (l := (p.dropWhile isWsChar).reverse)
      (p := isWsChar)).length_le
    simpa using this
  have hlen0 : (stripChars p).length
      = ((p.dropWhile isWsChar).reverse.dropWhile isWsChar).length := by
    simp [stripChars]
  have hleq : (stripChars p).length = p.length := by rw [hs]
  have hd : p.dropWhile isWsChar = p := by
    apply (List.dropWhile_suffix isWsChar).eq_of_length
    omega
  refine ⟨hd, ?_⟩
  have he : ((p.reverse.dropWhile isWsChar).reverse) = p := by
    calc ((p.reverse.dropWhile isWsChar).reverse)
        = stripChars p := by rw [stripChars, hd]
      _ = p := hs
  have := congrArg List.reverse he
  simpa using this

theorem dropWhile_head_false (w : Char → Bool) (h : Char) (t : List Char)
    (he : (h :: t).dropWhile w = h :: t) : w h = false := by
  by_cases hw : w h
  · rw [List.dropWhile_cons_of_pos hw] at he
    have := congrArg List.length he
    have hle := (List.dropWhile_sublist (l := t) (p := w)).length_le
    simp at this
    omega
  · simpa using hw

theorem stripChars_wrap (p : List Char) (hs : stripChars p = p) :
    stripChars ('\n' :: (p ++ ['\n'])) = p := by
  obtain ⟨hd, hr⟩ := stripChars_fix_parts p hs
  have hwnl : isWsChar '\n' = true := by decide
  cases p with
  | nil =>
    simp [stripChars, List.dropWhile_cons_of_pos, hwnl, isWsChar]
  | cons h t =>
    have hwh : isWsChar h = false := dropWhile_head_false _ _ _ hd
    unfold stripChars
    rw [List.dropWhile_cons_of_pos hwnl]
    rw [show (h :: t) ++ ['\n'] = h :: (t ++ ['\n']) from rfl,
      List.dropWhile_cons_of_neg (by simp [hwh])]
    rw [show (h :: (t ++ ['\n'])).reverse = '\n' :: (h :: t).reverse from by simp]
    rw [List.dropWhile_cons_of_pos hwnl, hr]
    simp

theorem splitGo_head_sep (a : Char) (as : List Char) (fuel : Nat)
    (rest cur : List Char) :
    splitGo (a :: as) (fuel+1) ((a :: as) ++ rest) cur
      = cur.reverse :: splitGo (a :: as) fuel rest [] := by
  have hbeg : begins (a :: as) ((a :: as) ++ rest) = true := begins_append _ _
  simp only [List.cons_append] at hbeg ⊢
  simp only [splitGo, hbeg, if_true]
  congr 2
  show (as ++ rest).drop as.length = rest
  exact List.drop_left as rest

theorem splitOnL_wrapFenced (p : List Char) (hb : btick ∉ p) :
    splitOnL (wrapFenced p) fenceJson = [[], '\n' :: (p ++ '\n' :: fence)] := by
  unfold splitOnL wrapFenced
  rw [if_neg (by decide)]
  have hlen : (fenceJson ++ '\n' :: (p ++ '\n' :: fence)).length + 1
      = (fenceJson.length + ('\n' :: (p ++ '\n' :: fence)).length) + 1 := by
    simp
  rw [hlen, fenceJson_eq, splitGo_head_sep]
  rw [splitGo_no_occ _ _ _ _ (by simp)
    (by
      intro i
      have hshape : ('\n' :: (p ++ ['\n'])) ++ (btick :: "``".toList)
          = '\n' :: (p ++ '\n' :: (btick :: "``".toList)) := by
        simp
      have hnp := no_occ_append ("``json".toList) ('\n' :: (p ++ ['\n']))
        (btick :: "``".toList)
        (by
          intro hm
          rcases List.mem_cons.mp hm with h1 | h2
          · exact absurd h1.symm (by decide)
          · rcases List.mem_append.mp h2 with h3 | h4
            · exact hb h3
            · exact absurd (List.mem_singleton.mp h4).symm (by decide))
        (by decide) i
      rw [hshape] at hnp
      rw [show fence = btick :: "``".toList from fence_eq]
      exact hnp)]
  rfl

theorem splitOnL_body_fence (p : List Char) (hb : btick ∉ p) :
    splitOnL ('\n' :: (p ++ '\n' :: fence)) fence = ['\n' :: (p ++ ['\n']), []] := by
  unfold splitOnL
  rw [if_neg (by decide)]
  have hshape : '\n' :: (p ++ '\n' :: fence) = ('\n' :: (p ++ ['\n'])) ++ fence := by
    simp
  rw [hshape, fence_eq]
  rw [splitGo_body_fence _ _ _ _ (by simp)
    (by
      intro hm
      rcases List.mem_cons.mp hm with h1 | h2
      · exact absurd h1.symm (by decide)
      · rcases List.mem_append.mp h2 with h3 | h4
        · exact hb h3
        · exact absurd (List.mem_singleton.mp h4).symm (by decide))]
  rfl

/-- A fenced payload and the bare payload produce identical results from
`_parse_json_response`, for any JSON parser, provided the payload contains
no backtick and carries no surrounding whitespace. -/
theorem parseJsonResponse_fenced (parse : List Char → Option JVal)
    (p : List Char) (hb : btick ∉ p) (hs : stripChars p = p) :
    parseJsonResponse parse (wrapFenced p) = parseJsonResponse parse p := by
  have h1 := splitOnL_wrapFenced p hb
  have h2 := splitOnL_body_fence p hb
  have h3 : splitOnL p fenceJson = [p] := by
    rw [fenceJson_eq]
    exact splitOnL_no_btick p _ hb
  have h4 : splitOnL p fence = [p] := by
    rw [fence_eq]
    exact splitOnL_no_btick p _ hb
  unfold parseJsonResponse
  rw [h1, h3, h4]
  dsimp only
  rw [h2]
  dsimp only [List.headD_cons]
  rw [stripChars_wrap p hs]

/-- Claim C1: every chunk returned by `search_similar_chunks` carries
metadata firm_id equal to the requested firm_id — for any index contents,
ranking, top_k, embedding (abstracted by the ranking oracle), and whether
or not a doc_id is supplied: the firm_id filter is always present in the
query. -/
theorem search_scoped_to_firm (idx : List PVec) (score : PVec → ℚ)
    (firm_id : String) (topK : Nat) (doc_id : Option String) (indexUp : Bool)
    (c : RetrChunk)
    (hc : c ∈ search_similar_chunks idx score firm_id topK doc_id indexUp) :
    c.metadata.firm_id = firm_id := by
  cases indexUp with
  | false => simp [search_similar_chunks] at hc
  | true =>
    simp only [search_similar_chunks, Bool.not_true, Bool.false_eq_true,
      if_false] at hc
    obtain ⟨m, hm, rfl⟩ := List.mem_map.mp hc
    obtain ⟨_, hmatch⟩ := mem_pineconeQuery _ _ _ _ _ hm
    simp only [matchesFilter, Bool.and_eq_true, decide_eq_true_eq] at hmatch
    exact hmatch.1

/-- Witness for C1 at a concrete one-vector index. -/
theorem search_scoped_to_firm_witness :
    (({ doc_id := "d", chunk_index := 0, text := "hello", score := 0
        metadata := wVec.metadata } : RetrChunk)
      ∈ search_similar_chunks [wVec] score0 "f" 5 (some "d") true)
    ∧ ({ doc_id := "d", chunk_index := 0, text := "hello", score := 0
         metadata := wVec.metadata } : RetrChunk).metadata.firm_id = "f" :=
  ⟨by decide,
   search_scoped_to_firm [wVec] score0 "f" 5 (some "d") true _ (by decide)⟩

/-- Claim C10: `generate_embeddings` is total (each outcome is an ordinary
return value, never a propagated exception): it returns the provider's
embedding on a successful call, the empty list on a caught provider-call
failure, and the 1536-zero sentinel when the active provider has no
embeddings endpoint. -/
theorem generate_embeddings_behavior (prov : String) (cfg key : Bool)
    (oc orc : Except String (List ℚ)) :
    (generate_embeddings prov cfg key oc orc = []
      ∨ generate_embeddings prov cfg key oc orc = zeroSentinel
      ∨ (∃ e, (oc = Except.ok e ∨ orc = Except.ok e)
          ∧ generate_embeddings prov cfg key oc orc = e))
    ∧ (prov = "openai" → cfg = true → ∀ e, oc = Except.ok e →
        generate_embeddings prov cfg key oc orc = e)
    ∧ (prov = "openai" → cfg = true → ∀ msg, oc = Except.error msg →
        generate_embeddings prov cfg key oc orc = [])
    ∧ (prov = "openrouter" → key = true → ∀ e, orc = Except.ok e →
        generate_embeddings prov cfg key oc orc = e)
    ∧ (prov = "openrouter" → key = true → ∀ msg, orc = Except.error msg →
        generate_embeddings prov cfg key oc orc = [])
    ∧ (¬(prov = "openai" ∧ cfg = true) → ¬(prov = "openrouter" ∧ key = true) →
        generate_embeddings prov cfg key oc orc = zeroSentinel) := by
  refine ⟨?_, ?_, ?_, ?_, ?_, ?_⟩
  · by_cases h1 : prov = "openai" ∧ cfg = true
    · cases oc with
      | ok e =>
        right; right
        exact ⟨e, Or.inl rfl, by simp [generate_embeddings, h1]⟩
      | error msg => left; simp [generate_embeddings, h1]
    · by_cases h2 : prov = "openrouter" ∧ key = true
      · cases orc with
        | ok e =>
          right; right
          exact ⟨e, Or.inr rfl, by simp [generate_embeddings, h1, h2]⟩
        | error msg => left; simp [generate_embeddings, h1, h2]
      · right; left; simp [generate_embeddings, zeroSentinel, h1, h2]
  · intro hp hc e he
    subst he
    simp [generate_embeddings, hp, hc]
  · intro hp hc msg he
    subst he
    simp [generate_embeddings, hp, hc]
  · intro hp hk e he
    subst he
    simp [generate_embeddings, hp, hk]
  · intro hp hk msg he
    subst he
    simp [generate_embeddings, hp, hk]
  · intro h1 h2
    simp [generate_embeddings, zeroSentinel, h1, h2]

/-- Witness for C10: a provider with no embeddings endpoint yields the
zero sentinel. -/
theorem generate_embeddings_behavior_witness :
    generate_embeddings "perplexity" false false
      (Except.error "e1") (Except.error "e2") = zeroSentinel :=
  (generate_embeddings_behavior "perplexity" false false
      (Except.error "e1") (Except.error "e2")).2.2.2.2.2
    (by simp) (by simp)

/-- Counterexample to claim C2 as stated: a whitespace-only text is
non-empty, yet `chunk_text` returns zero chunks, because the whitespace
split yields no words. -/
theorem chunk_text_whitespace_counterexample :
    chunk_text " " 500 50 = [] ∧ (" " : String) ≠ "" := by
  constructor
  · decide
  · decide

/-- Claim C2 (amended): with `overlap < chunk_size`, every window of
`chunk_text` holds at most `chunk_size` words, window `k` starts at word
`k * (chunk_size - overlap)`, consecutive windows share exactly `overlap`
words, the result is empty exactly when the text splits into no words
(empty or whitespace-only text), and a text whose word count `n` satisfies
`1 ≤ n ≤ chunk_size` yields exactly one chunk. -/
theorem chunk_text_window_structure (text : String) (size overlap : Nat)
    (h : overlap < size) :
    chunk_text text size overlap
        = (chunkWindows (pySplit text) size overlap).map (String.intercalate " ")
    ∧ (∀ w ∈ chunkWindows (pySplit text) size overlap, w.length ≤ size)
    ∧ (∀ k w, (chunkWindows (pySplit text) size overlap).get? k = some w →
        w = ((pySplit text).drop (k * (size - overlap))).take size)
    ∧ (∀ k w w', (chunkWindows (pySplit text) size overlap).get? k = some w →
        (chunkWindows (pySplit text) size overlap).get? (k+1) = some w' →
        w.drop (size - overlap) = w'.take overlap
          ∧ (w.drop (size - overlap)).length = overlap)
    ∧ (chunk_text text size overlap = [] ↔ pySplit text = [])
    ∧ (pySplit text ≠ [] → (pySplit text).length ≤ size →
        chunk_text text size overlap
          = [String.intercalate " " ((pySplit text).take size)]) := by
  refine ⟨rfl, ?_, ?_, ?_, ?_, ?_⟩
  · intro w hw
    obtain ⟨k, hk⟩ := List.mem_iff_get?.mp hw
    rw [chunkWindows_get _ _ _ h _ _ hk]
    simp [List.length_take]
  · intro k w hk
    exact chunkWindows_get _ _ _ h _ _ hk
  · intro k w w' hk hk'
    have hw := chunkWindows_get _ _ _ h _ _ hk
    have hw' := chunkWindows_get _ _ _ h _ _ hk'
    have hfull := chunkWindows_next_full _ _ _ h _ _ hk'
    subst hw hw'
    constructor
    · rw [List.drop_take, List.drop_drop, List.take_take]
      have e1 : size - (size - overlap) = overlap := by omega
      have e2 : k * (size - overlap) + (size - overlap) = (k + 1) * (size - overlap) := by
        ring
      have e3 : overlap ⊓ size = overlap := by omega
      rw [e1, e2, e3]
    · simp only [List.length_drop, List.length_take]
      generalize hA : k * (size - overlap) = a at hfull ⊢
      omega
  · rw [chunk_text]
    rw [List.map_eq_nil_iff]
    exact chunkWindows_nil_iff _ _ _
  · intro hne hle
    rw [chunk_text, chunkWindows_single _ _ _ hne hle]
    rfl

/-- Witness for the amended C2 at a concrete three-word text with window
size 2 and overlap 1. -/
theorem chunk_text_window_structure_witness :
    (1 < 2)
    ∧ (chunk_text "a b c" 2 1
        = (chunkWindows (pySplit "a b c") 2 1).map (String.intercalate " ")
    ∧ (∀ w ∈ chunkWindows (pySplit "a b c") 2 1, w.length ≤ 2)
    ∧ (∀ k w, (chunkWindows (pySplit "a b c") 2 1).get? k = some w →
        w = ((pySplit "a b c").drop (k * (2 - 1))).take 2)
    ∧ (∀ k w w', (chunkWindows (pySplit "a b c") 2 1).get? k = some w →
        (chunkWindows (pySplit "a b c") 2 1).get? (k+1) = some w' →
        w.drop (2 - 1) = w'.take 1 ∧ (w.drop (2 - 1)).length = 1)
    ∧ (chunk_text "a b c" 2 1 = [] ↔ pySplit "a b c" = [])
    ∧ (pySplit "a b c" ≠ [] → (pySplit "a b c").length ≤ 2 →
        chunk_text "a b c" 2 1
          = [String.intercalate " " ((pySplit "a b c").take 2)])) :=
  ⟨by decide, chunk_text_window_structure "a b c" 2 1 (by decide)⟩

theorem finalStatus_append_status (l : List DBWrite) (s : String) (a : String) :
    finalStatus (l ++ [DBWrite.statusUpdate s none, DBWrite.auditLog a]) = some s := by
  simp [finalStatus, List.reverse_append, List.findSome?_cons, statusOf]

/-- Claim C8: a run whose extracted pages concatenate to empty or
whitespace-only text sets the document status to failed and stops: the
only writes are the two status updates, so no summary, clause, fact,
chunk or embedding rows are created and no vectors are upserted. -/
theorem empty_extraction_fails_clean (doc_id firm_id : String) (env : PipelineEnv)
    (pages : List (Option String)) (hp : env.pdfPages = Except.ok pages)
    (ht : stripChars (extractedText pages).data = []) :
    (process_document_task doc_id firm_id env).1
        = [DBWrite.statusUpdate "processing" none, DBWrite.statusUpdate "failed" none]
    ∧ finalStatus (process_document_task doc_id firm_id env).1 = some "failed"
    ∧ (process_document_task doc_id firm_id env).2
        = { success := false, error := some "No text extracted from PDF" }
    ∧ (∀ w ∈ (process_document_task doc_id firm_id env).1, isArtifactWrite w = false) := by
  have hrun : process_document_task doc_id firm_id env
      = ([DBWrite.statusUpdate "processing" none, DBWrite.statusUpdate "failed" none],
         { success := false, error := some "No text extracted from PDF" }) := by
    unfold process_document_task
    rw [hp]
    simp [ht]
  rw [hrun]
  exact ⟨rfl, by decide, rfl, by decide⟩

/-- Witness for C8 at a run with one whitespace page, one unreadable page
and one more whitespace page. -/
theorem empty_extraction_fails_clean_witness :
    (envEmptyText.pdfPages = Except.ok [some " ", none, some "  "])
    ∧ stripChars (extractedText [some " ", none, some "  "]).data = []
    ∧ ((process_document_task "d" "f" envEmptyText).1
        = [DBWrite.statusUpdate "processing" none, DBWrite.statusUpdate "failed" none]
    ∧ finalStatus (process_document_task "d" "f" envEmptyText).1 = some "failed"
    ∧ (process_document_task "d" "f" envEmptyText).2
        = { success := false, error := some "No text extracted from PDF" }
    ∧ (∀ w ∈ (process_document_task "d" "f" envEmptyText).1, isArtifactWrite w = false)) :=
  ⟨rfl, by decide,
   empty_extraction_fails_clean "d" "f" envEmptyText [some " ", none, some "  "]
     rfl (by decide)⟩

/-- Claim C5: the final status is failed exactly when extraction fails or
yields no text or an unhandled exception reaches the top level; in a run
with good extraction and no unhandled exception the status is completed
regardless of the three AI sub-task outcomes, the summary and fact rows
are written exactly when their own sub-task succeeded, and the clause
rows are written exactly when clause extraction succeeded. -/
theorem pipeline_status_policy (doc_id firm_id : String) (env : PipelineEnv) :
    (finalStatus (process_document_task doc_id firm_id env).1 = some "failed"
        ↔ (extractionBad env = true ∨ env.unexpected.isSome = true))
    ∧ (extractionBad env = false → env.unexpected = none →
        finalStatus (process_document_task doc_id firm_id env).1 = some "completed"
        ∧ ((DBWrite.summaryRow env.summaryR.tokens_used
              ∈ (process_document_task doc_id firm_id env).1)
            ↔ env.summaryR.success = true)
        ∧ ((DBWrite.factRow ∈ (process_document_task doc_id firm_id env).1)
            ↔ env.factsR.success = true)
        ∧ (env.clausesR.success = true →
            ∀ i, i < env.clausesR.clauses.length →
              DBWrite.clauseRow i ∈ (process_document_task doc_id firm_id env).1)
        ∧ (env.clausesR.success = false →
            ∀ i, DBWrite.clauseRow i ∉ (process_document_task doc_id firm_id env).1)) := by
  rcases henv : env.pdfPages with e | pages
  · have hrun : (process_document_task doc_id firm_id env).1
        = [DBWrite.statusUpdate "processing" none, DBWrite.statusUpdate "failed" none] := by
      unfold process_document_task
      rw [henv]
      rfl
    have hbad : extractionBad env = true := by simp [extractionBad, henv]
    rw [hrun, hbad]
    constructor
    · simp [finalStatus, List.findSome?_cons, statusOf]
    · intro hfalse
      simp at hfalse
  · by_cases hts : stripChars (extractedText pages).data = []
    · have hrun : (process_document_task doc_id firm_id env).1
          = [DBWrite.statusUpdate "processing" none, DBWrite.statusUpdate "failed" none] := by
        unfold process_document_task
        rw [henv]
        simp [hts]
      have hbad : extractionBad env = true := by simp [extractionBad, henv, hts]
      rw [hrun, hbad]
      constructor
      · simp [finalStatus, List.findSome?_cons, statusOf]
      · intro hfalse
        simp at hfalse
    · have hbad : extractionBad env = false := by
        simp [extractionBad, henv]
        exact hts
      rcases hu : env.unexpected with _ | e
      · -- no unhandled exception: the completed path
        have hrun : (process_document_task doc_id firm_id env).1
            = ([DBWrite.statusUpdate "processing" none,
                DBWrite.statusUpdate "processing" (some (extractedText pages))]
              ++ (if env.summaryR.success then
                  [DBWrite.summaryRow env.summaryR.tokens_used,
                   DBWrite.usageBump "ai_tokens" env.summaryR.tokens_used]
                else [])
              ++ (if env.clausesR.success then
                  (List.range env.clausesR.clauses.length).map DBWrite.clauseRow
                    ++ [DBWrite.usageBump "ai_tokens" env.clausesR.tokens_used]
                else [])
              ++ (if env.factsR.success then
                  [DBWrite.factRow, DBWrite.usageBump "ai_tokens" env.factsR.tokens_used]
                else [])
              ++ (if ((chunk_text (extractedText pages) 500 50).map env.embed).filter
                      (fun e => e ≠ []) ≠ [] then
                  (((chunk_text (extractedText pages) 500 50).zip
                      (((chunk_text (extractedText pages) 500 50).map env.embed).filter
                        (fun e => e ≠ []))).enum.flatMap (fun p =>
                    [DBWrite.chunkRow p.1 p.2.1 (pySplit p.2.1).length,
                     DBWrite.embeddingRow p.1 (doc_id, p.1)]))
                    ++ [DBWrite.vectorUpsert doc_id firm_id
                        (chunk_text (extractedText pages) 500 50)
                        (((chunk_text (extractedText pages) 500 50).map env.embed).filter
                          (fun e => e ≠ []))]
                else [])
              ++ [DBWrite.statusUpdate "completed" none,
                  DBWrite.auditLog "document_processed"]) := by
          unfold process_document_task
          rw [henv]
          simp only [hts, if_neg, hu]
          simp
        simp only [hbad, hu]
        rw [hrun]
        constructor
        · rw [show ∀ a b c d e f : List DBWrite, a ++ b ++ c ++ d ++ e ++ f
              = (a ++ b ++ c ++ d ++ e) ++ f from fun _ _ _ _ _ _ => by simp,
            finalStatus_append_status]
          simp
        · intros
          refine ⟨?_, ?_, ?_, ?_, ?_⟩
          · rw [show ∀ a b c d e f : List DBWrite, a ++ b ++ c ++ d ++ e ++ f
                = (a ++ b ++ c ++ d ++ e) ++ f from fun _ _ _ _ _ _ => by simp,
              finalStatus_append_status]
          · by_cases hs : env.summaryR.success <;>
              simp [hs, List.mem_append, List.mem_flatMap]
          · by_cases hf : env.factsR.success <;>
              simp [hf, List.mem_append, List.mem_flatMap]
          · intro hc i hi
            simp [hc, List.mem_append]
            tauto
          · intro hc i
            simp [hc, List.mem_append, List.mem_flatMap]
      · -- an unhandled exception reached the top-level handler
        have hrun : (process_document_task doc_id firm_id env).1
            = [DBWrite.statusUpdate "processing" none,
               DBWrite.statusUpdate "processing" (some (extractedText pages)),
               DBWrite.statusUpdate "failed" none] := by
          unfold process_document_task
          rw [henv]
          simp [hts, hu]
        simp only [hbad, hu]
        rw [hrun]
        constructor
        · simp [finalStatus, List.findSome?_cons, statusOf]
        · intro _ hfalse
          simp at hfalse

/-- Witness for C5 at a healthy concrete run. -/
theorem pipeline_status_policy_witness :
    extractionBad envHealthy = false
    ∧ envHealthy.unexpected = none
    ∧ finalStatus (process_document_task "d" "f" envHealthy).1 = some "completed" :=
  ⟨by decide, rfl,
   ((pipeline_status_policy "d" "f" envHealthy).2 (by decide) rfl).1⟩

/-- Claim C3 is violated by the code: a chunk whose embedding call
returned the all-zero 1536-dimensional sentinel passes the `if embedding:`
truthiness test (the sentinel is a non-empty list), is collected, and is
upserted to the vector index. -/
theorem zero_sentinel_indexed :
    (DBWrite.vectorUpsert "d" "f" ["alpha"] [zeroSentinel]
        ∈ (process_document_task "d" "f" envSentinel).1)
    ∧ zeroSentinel.length = 1536
    ∧ (∀ q ∈ zeroSentinel, q = 0) := by
  have hzn : zeroSentinel ≠ [] := by
    intro h
    have hl := congrArg List.length h
    simp [zeroSentinel] at hl
  have hch : chunk_text "alpha" 500 50 = ["alpha"] := by decide
  have hex : extractedText [some "alpha"] = "alpha" := by decide
  have hst : stripChars ("alpha" : String).data ≠ [] := by decide
  have hps : (pySplit "alpha").length = 1 := by decide
  have hrun : (process_document_task "d" "f" envSentinel).1
      = [DBWrite.statusUpdate "processing" none,
         DBWrite.statusUpdate "processing" (some "alpha"),
         DBWrite.chunkRow 0 "alpha" 1,
         DBWrite.embeddingRow 0 ("d", 0),
         DBWrite.vectorUpsert "d" "f" ["alpha"] [zeroSentinel],
         DBWrite.statusUpdate "completed" none,
         DBWrite.auditLog "document_processed"] := by
    unfold process_document_task
    simp only [envSentinel, hex, hst]
    simp [hch, hzn, hps, List.flatMap]
  rw [hrun]
  refine ⟨by simp, by simp [zeroSentinel], ?_⟩
  intro q hq
  exact List.eq_of_mem_replicate hq

/-- Claim C9: when the vector search returns zero chunks, the context
passed to the completion client is the empty string; provided the
completion call succeeds and honours the context-only system instruction
(returning the fixed no-information reply on an empty context), the chat
route returns that reply normally, raising no exception. -/
theorem chat_empty_context_no_info (env : ChatEnv)
    (userFirm document_id question docFirm stored : String)
    (hdoc : env.doc = some (docFirm, stored))
    (hfirm : docFirm = userFirm)
    (hsearch : search_similar_chunks env.idx env.score userFirm 5
        (some document_id) env.indexUp = [])
    (hcs : (env.completion question "").success = true)
    (hca : (env.completion question "").content = noInfoAnswer.toList) :
    buildContext [] = ""
    ∧ chat_with_document env userFirm document_id question
        = Except.ok { answer := noInfoAnswer, sources := []
                      tokens_used := (env.completion question "").tokens_used } := by
  have hctx : buildContext [] = "" := rfl
  refine ⟨hctx, ?_⟩
  unfold chat_with_document
  rw [hdoc]
  dsimp only
  rw [if_neg (by simp [hfirm]), hsearch, hctx]
  unfold chat_with_context
  dsimp only
  rw [hcs]
  simp only [if_true]
  rw [hca]
  rfl

/-- Witness for C9: index unconfigured, contract-following provider. -/
theorem chat_empty_context_no_info_witness :
    search_similar_chunks envChatDown.idx envChatDown.score "f" 5
        (some "doc1") envChatDown.indexUp = []
    ∧ (envChatDown.completion "q" "").success = true
    ∧ (buildContext [] = ""
        ∧ chat_with_document envChatDown "f" "doc1" "q"
            = Except.ok { answer := noInfoAnswer, sources := []
                          tokens_used := (envChatDown.completion "q" "").tokens_used }) :=
  ⟨by decide, by decide,
   chat_empty_context_no_info envChatDown "f" "doc1" "q" "f" "contract.pdf"
     rfl rfl (by decide) (by decide) (by decide)⟩

theorem rankByScore_sorted (score : PVec → ℚ) (l : List PVec)
    (hp : l.Pairwise (fun a b => score b < score a)) : rankByScore score l = l := by
  induction l with
  | nil => rfl
  | cons a rest ih =>
    rw [List.pairwise_cons] at hp
    have hr := ih hp.2
    simp only [rankByScore, List.foldr_cons] at hr ⊢
    rw [hr]
    cases rest with
    | nil => rfl
    | cons b bs => simp [insertRanked, hp.1 b (by simp)]

theorem bigIdx_pairwise : bigIdx.Pairwise (fun a b => scoreIdx b < scoreIdx a) := by
  unfold bigIdx
  rw [List.pairwise_map]
  refine List.Pairwise.imp ?_ (List.pairwise_lt_range 10001)
  intro i j hij
  simp only [scoreIdx, bigVec]
  have : (i : ℚ) < (j : ℚ) := by exact_mod_cast hij
  linarith

theorem bigIdx_filter_matches :
    bigIdx.filter (matchesFilter { firm_id := none, doc_id := some "doc" }) = bigIdx := by
  apply List.filter_eq_self.mpr
  intro v hv
  obtain ⟨i, _, rfl⟩ := List.mem_map.mp hv
  simp [matchesFilter, bigVec]

/-- Claim C4 is violated by the code on documents with more than 10000
vectors: the delete routine queries with `top_k = 10000` and deletes only
the returned ids, so on an index holding 10001 vectors of one document at
least one vector whose metadata doc_id matches survives the deletion. -/
theorem delete_misses_vector_beyond_cap :
    (bigVec 10000 ∈ delete_document_vectors scoreIdx "doc" bigIdx)
    ∧ (bigVec 10000).metadata.doc_id = "doc" := by
  refine ⟨?_, rfl⟩
  unfold delete_document_vectors pineconeQuery
  rw [bigIdx_filter_matches]
  rw [show bigIdx.foldr (insertRanked scoreIdx) [] = rankByScore scoreIdx bigIdx from rfl]
  rw [rankByScore_sorted scoreIdx bigIdx bigIdx_pairwise]
  have htake : bigIdx.take 10000 = (List.range 10000).map bigVec := by
    unfold bigIdx
    rw [← List.map_take, List.take_range]
    norm_num
  rw [htake]
  apply List.mem_filter.mpr
  constructor
  · exact List.mem_map.mpr ⟨10000, List.mem_range.mpr (by norm_num), rfl⟩
  · simp only [List.map_map, decide_eq_true_eq]
    intro hmem
    obtain ⟨i, hi, hei⟩ := List.mem_map.mp hmem
    have : bigVec i = bigVec 10000 → i = 10000 := by
      intro he
      have := congrArg (fun v => v.metadata.chunk_index) he
      simpa [bigVec] using this
    have hid : (bigVec i).id = ("doc", 10000) := hei
    have : i = 10000 := by
      have := congrArg Prod.snd hid
      simpa [bigVec] using this
    rw [this] at hi
    exact absurd (List.mem_range.mp hi) (by norm_num)

/-- Counterexample to claim C6 as stated: on the identical fenced payload
the summary and facts paths succeed (they use `_parse_json_response`), but
`extract_clauses` feeds the raw content straight to `json.loads`, so the
fenced response fails where the unwrapped one succeeds; and the clauses
failure reports only an error string, with no truncated raw copy (its
result dict has no raw-content key at all). -/
theorem clauses_fenced_json_counterexample :
    (extract_clauses jsonLoads { success := true, content := wrapFenced emptyObj }).success = false
    ∧ (extract_clauses jsonLoads { success := true, content := emptyObj }).success = true
    ∧ (generate_summary jsonLoads { success := true, content := wrapFenced emptyObj }).success = true
    ∧ (extract_facts jsonLoads { success := true, content := wrapFenced emptyObj }).success = true
    ∧ (extract_clauses jsonLoads { success := true, content := wrapFenced emptyObj }).error
        = some "Invalid JSON response"
    ∧ (generate_summary jsonLoads { success := true, content := "oops".toList }).raw_content
        = some ("oops".toList) :=
  ⟨rfl, rfl, rfl, rfl, rfl, rfl⟩

/-- Claim C6 (amended): for the operations built on `_parse_json_response`
— summary and facts — a fenced payload parses identically to the bare
payload (for any parser, and any backtick-free payload without surrounding
whitespace); a parse failure is reported as a distinct error, with the
200-character truncation of the content preserved by
`_parse_json_response` and surfaced by `generate_summary` as raw content
(while `extract_clauses` and `extract_facts` drop it, and
`extract_clauses` bypasses the fence recovery entirely, as the
counterexample shows). -/
theorem json_recovery_amended (parse : List Char → Option JVal) (p : List Char)
    (t : Nat) (hb : btick ∉ p) (hs : stripChars p = p) :
    generate_summary parse { success := true, content := wrapFenced p, tokens_used := t }
        = generate_summary parse { success := true, content := p, tokens_used := t }
    ∧ extract_facts parse { success := true, content := wrapFenced p, tokens_used := t }
        = extract_facts parse { success := true, content := p, tokens_used := t }
    ∧ (parse p = none →
        parseJsonResponse parse p = ParseOut.fail (p.take 200)
        ∧ (generate_summary parse
            { success := true, content := p, tokens_used := t }).success = false
        ∧ (generate_summary parse
            { success := true, content := p, tokens_used := t }).raw_content
          = some (p.take 200)) := by
  have hEq := parseJsonResponse_fenced parse p hb hs
  have hplain : parseJsonResponse parse p
      = match parse p with
        | some j => ParseOut.ok j
        | none => ParseOut.fail (p.take 200) := by
    have h3 : splitOnL p fenceJson = [p] := by
      rw [fenceJson_eq]
      exact splitOnL_no_btick p _ hb
    have h4 : splitOnL p fence = [p] := by
      rw [fence_eq]
      exact splitOnL_no_btick p _ hb
    unfold parseJsonResponse
    rw [h3, h4]
  refine ⟨?_, ?_, ?_⟩
  · unfold generate_summary
    rw [hEq]
  · unfold extract_facts
    rw [hEq]
  · intro hf
    have hfail : parseJsonResponse parse p = ParseOut.fail (p.take 200) := by
      rw [hplain, hf]
    refine ⟨hfail, ?_, ?_⟩
    · unfold generate_summary
      rw [hfail]
      rfl
    · unfold generate_summary
      rw [hfail]
      rfl

/-- Witness for the amended C6 at the empty-object payload and the
`json.loads` model. -/
theorem json_recovery_amended_witness :
    (btick ∉ emptyObj)
    ∧ stripChars emptyObj = emptyObj
    ∧ generate_summary jsonLoads
        { success := true, content := wrapFenced emptyObj, tokens_used := 3 }
      = generate_summary jsonLoads
        { success := true, content := emptyObj, tokens_used := 3 } :=
  ⟨by decide, by decide,
   (json_recovery_amended jsonLoads emptyObj 3 (by decide) (by decide)).1⟩

theorem delete_document_vectors_eq (score : PVec → ℚ) (doc_id : String)
    (idx : List PVec) (hnodup : (idx.map PVec.id).Nodup)
    (hcap : (idx.filter (matchesDoc doc_id)).length ≤ 10000) :
    delete_document_vectors score doc_id idx
      = idx.filter (fun v => !(matchesDoc doc_id v)) := by
  have hmf : ∀ v ∈ idx,
      matchesFilter { firm_id := none, doc_id := some doc_id } v = matchesDoc doc_id v := by
    intro v _
    simp [matchesFilter, matchesDoc]
  unfold delete_document_vectors pineconeQuery
  rw [List.filter_congr hmf]
  rw [show (idx.filter (matchesDoc doc_id)).foldr (insertRanked score) []
      = rankByScore score (idx.filter (matchesDoc doc_id)) from rfl]
  rw [List.take_of_length_le (by rw [length_rankByScore]; exact hcap)]
  apply List.filter_congr
  intro v hv
  have hiff : v.id ∈ (rankByScore score (idx.filter (matchesDoc doc_id))).map
      (fun m => m.id) ↔ matchesDoc doc_id v = true := by
    constructor
    · intro hin
      obtain ⟨u, hu, hue⟩ := List.mem_map.mp hin
      rw [mem_rankByScore] at hu
      have humem : u ∈ idx := List.mem_of_mem_filter hu
      have hum : matchesDoc doc_id u = true := List.of_mem_filter hu
      have heq : u = v := List.inj_on_of_nodup_map hnodup humem hv hue
      rwa [heq] at hum
    · intro hm
      exact List.mem_map.mpr
        ⟨v, (mem_rankByScore score _ v).mpr (List.mem_filter.mpr ⟨hv, hm⟩), rfl⟩
  by_cases hm : matchesDoc doc_id v = true
  · simp [hm, hiff.mpr hm]
  · have hnin : v.id ∉ (rankByScore score (idx.filter (matchesDoc doc_id))).map
        (fun m => m.id) := fun hin => hm (hiff.mp hin)
    rw [Bool.not_eq_true] at hm
    simp [hm, hnin]

theorem buildVectors_mem_fields (doc firm : String) (chunks : List String)
    (embeddings : List (List ℚ)) (v : PVec)
    (hv : v ∈ buildVectors doc firm chunks embeddings) :
    v.id.1 = doc ∧ v.metadata.doc_id = doc := by
  obtain ⟨p, _, rfl⟩ := List.mem_map.mp hv
  exact ⟨rfl, rfl⟩

theorem buildVectors_ids (doc firm : String) (chunks : List String)
    (embeddings : List (List ℚ)) :
    (buildVectors doc firm chunks embeddings).map PVec.id
      = (List.range (chunks.zip embeddings).length).map (fun i => (doc, i)) := by
  unfold buildVectors
  rw [List.map_map]
  rw [show (PVec.id ∘ fun p : Nat × (String × List ℚ) =>
      ({ id := (doc, p.1), values := p.2.2
         metadata := { doc_id := doc, firm_id := firm, chunk_index := p.1
                       text := p.2.1.take 1000 } } : PVec))
      = ((fun i => (doc, i)) ∘ Prod.fst) from rfl]
  rw [← List.map_map, List.enum_map_fst]

theorem buildVectors_ids_nodup (doc firm : String) (chunks : List String)
    (embeddings : List (List ℚ)) :
    ((buildVectors doc firm chunks embeddings).map PVec.id).Nodup := by
  rw [buildVectors_ids]
  exact List.Nodup.map (fun a b h => by simpa using h) (List.nodup_range _)

theorem buildVectors_length (doc firm : String) (chunks : List String)
    (embeddings : List (List ℚ)) :
    (buildVectors doc firm chunks embeddings).length
      = (chunks.zip embeddings).length := by
  simp [buildVectors]

theorem upsertOne_fresh (idx : List PVec) (v : PVec)
    (h : ∀ w ∈ idx, w.id ≠ v.id) : upsertOne idx v = idx ++ [v] := by
  unfold upsertOne
  rw [if_neg]
  simp only [List.any_eq_true, decide_eq_true_eq, not_exists]
  intro w
  rw [not_and]
  exact fun hw => h w hw

theorem foldl_upsert_fresh (news : List PVec) :
    ∀ acc : List PVec, (∀ w ∈ acc, ∀ v ∈ news, w.id ≠ v.id) →
      (news.map PVec.id).Nodup →
      news.foldl upsertOne acc = acc ++ news := by
  induction news with
  | nil =>
    intro acc _ _
    simp
  | cons v vs ih =>
    intro acc hfresh hnd
    rw [List.foldl_cons, upsertOne_fresh acc v (fun w hw => hfresh w hw v (by simp))]
    rw [List.map_cons, List.nodup_cons] at hnd
    rw [ih (acc ++ [v]) ?_ hnd.2]
    · simp
    · intro w hw u hu
      rcases List.mem_append.mp hw with h1 | h2
      · exact hfresh w h1 u (List.mem_cons_of_mem _ hu)
      · have hwv : w = v := by simpa using h2
        subst hwv
        intro he
        apply hnd.1
        rw [he]
        exact List.mem_map_of_mem _ hu

theorem upsert_fresh_result (doc firm : String) (chunks : List String)
    (embeddings : List (List ℚ)) (base : List PVec)
    (hfresh : ∀ w ∈ base, w.id.1 ≠ doc) :
    upsert_document_vectors doc firm chunks embeddings base
      = base ++ buildVectors doc firm chunks embeddings := by
  unfold upsert_document_vectors
  apply foldl_upsert_fresh
  · intro w hw v hv he
    have h1 := (buildVectors_mem_fields doc firm chunks embeddings v hv).1
    apply hfresh w hw
    rw [he, h1]
  · exact buildVectors_ids_nodup doc firm chunks embeddings

theorem regen_run (doc_id firm text : String) (embed : String → List ℚ)
    (score : PVec → ℚ) (st : DBState) (hne : text ≠ "")
    (hwf : ∀ v ∈ st.index, v.id.1 = v.metadata.doc_id)
    (hnodup : (st.index.map PVec.id).Nodup)
    (hcap : (st.index.filter (matchesDoc doc_id)).length ≤ 10000) :
    regenerate_embeddings_task doc_id (some (firm, text)) embed score st
      = ({ index := st.index.filter (fun v => !(matchesDoc doc_id v))
              ++ buildVectors doc_id firm (chunk_text text 500 50)
                  ((chunk_text text 500 50).map embed)
           chunks := st.chunks.filter (fun r => r.document_id ≠ doc_id)
              ++ regenChunkRows doc_id (chunk_text text 500 50)
                  ((chunk_text text 500 50).map embed)
           embeds := st.embeds.filter (fun r => r.document_id ≠ doc_id)
              ++ regenEmbedRows doc_id (chunk_text text 500 50)
                  ((chunk_text text 500 50).map embed) },
         { success := true, chunks_count := (chunk_text text 500 50).length }) := by
  unfold regenerate_embeddings_task
  dsimp only
  rw [if_neg hne]
  rw [delete_document_vectors_eq score doc_id st.index hnodup hcap]
  rw [upsert_fresh_result doc_id firm _ _ _ ?_]
  intro w hw
  have hmem : w ∈ st.index := List.mem_of_mem_filter hw
  have hnm : (!(matchesDoc doc_id w)) = true := (List.mem_filter.mp hw).2
  rw [hwf w hmem]
  simp only [Bool.not_eq_true', matchesDoc, decide_eq_false_iff_not] at hnm
  exact hnm

theorem regenChunkRows_mem (doc_id : String) (chunks : List String)
    (embeddings : List (List ℚ)) (r : ChunkRow)
    (hr : r ∈ regenChunkRows doc_id chunks embeddings) :
    r.document_id = doc_id := by
  obtain ⟨p, _, he⟩ := List.mem_filterMap.mp hr
  by_cases hc : p.2.2 ≠ []
  · rw [if_pos hc] at he
    cases he
    rfl
  · rw [if_neg hc] at he
    cases he

theorem regenEmbedRows_mem (doc_id : String) (chunks : List String)
    (embeddings : List (List ℚ)) (r : EmbedRow)
    (hr : r ∈ regenEmbedRows doc_id chunks embeddings) :
    r.document_id = doc_id := by
  obtain ⟨p, _, he⟩ := List.mem_filterMap.mp hr
  by_cases hc : p.2.2 ≠ []
  · rw [if_pos hc] at he
    cases he
    rfl
  · rw [if_neg hc] at he
    cases he

/-- Claim C7: on a document with persisted extracted text, running the
regeneration twice in sequence yields the same database and index state as
running it once — in particular the same chunk count — and the resulting
index has no duplicate vector ids.  The state hypotheses say the initial
index is a reachable Pinecone state (ids are unique and agree with the
metadata doc_id) and that the document stays within the delete query's
10000-vector cap. -/
theorem regenerate_idempotent (doc_id firm text : String)
    (embed : String → List ℚ) (score : PVec → ℚ) (st : DBState)
    (hne : text ≠ "")
    (hwf : ∀ v ∈ st.index, v.id.1 = v.metadata.doc_id)
    (hnodup : (st.index.map PVec.id).Nodup)
    (hcap : (st.index.filter (matchesDoc doc_id)).length ≤ 10000)
    (hchunks : (chunk_text text 500 50).length ≤ 10000) :
    (regenerate_embeddings_task doc_id (some (firm, text)) embed score
        (regenerate_embeddings_task doc_id (some (firm, text)) embed score st).1)
      = regenerate_embeddings_task doc_id (some (firm, text)) embed score st
    ∧ ((regenerate_embeddings_task doc_id (some (firm, text)) embed score st).2.chunks_count
        = (chunk_text text 500 50).length)
    ∧ (((regenerate_embeddings_task doc_id (some (firm, text)) embed score st).1.index.map
          PVec.id)).Nodup := by
  have h1 := regen_run doc_id firm text embed score st hne hwf hnodup hcap
  set chunks := chunk_text text 500 50 with hch
  set embeddings := chunks.map embed with hemb
  set news := buildVectors doc_id firm chunks embeddings with hnews
  set D0 := st.index.filter (fun v => !(matchesDoc doc_id v)) with hD0
  set C0 := st.chunks.filter (fun r => r.document_id ≠ doc_id) with hC0
  set E0 := st.embeds.filter (fun r => r.document_id ≠ doc_id) with hE0
  set CR := regenChunkRows doc_id chunks embeddings with hCR
  set ER := regenEmbedRows doc_id chunks embeddings with hER
  have hD0mem : ∀ v ∈ D0, v.metadata.doc_id ≠ doc_id := by
    intro v hv
    have := List.of_mem_filter hv
    simpa [matchesDoc] using this
  have hD0sub : ∀ v ∈ D0, v ∈ st.index := fun v hv => List.mem_of_mem_filter hv
  have hnewsmem := buildVectors_mem_fields doc_id firm chunks embeddings
  have hwf1 : ∀ v ∈ D0 ++ news, v.id.1 = v.metadata.doc_id := by
    intro v hv
    rcases List.mem_append.mp hv with hv1 | hv2
    · exact hwf v (hD0sub v hv1)
    · rw [(hnewsmem v hv2).1, (hnewsmem v hv2).2]
  have hnodup1 : ((D0 ++ news).map PVec.id).Nodup := by
    rw [List.map_append]
    apply List.Nodup.append
    · exact ((List.filter_sublist _).map PVec.id).nodup hnodup
    · exact buildVectors_ids_nodup doc_id firm chunks embeddings
    · intro a ha hb
      obtain ⟨v, hv, rfl⟩ := List.mem_map.mp ha
      obtain ⟨u, hu, heu⟩ := List.mem_map.mp hb
      have h1 : v.id.1 = v.metadata.doc_id := hwf v (hD0sub v hv)
      have h2 : u.id.1 = doc_id := (hnewsmem u hu).1
      apply hD0mem v hv
      rw [← h1, ← heu, h2]
  have hfD0 : D0.filter (matchesDoc doc_id) = [] := by
    apply List.filter_eq_nil_iff.mpr
    intro v hv
    simp [matchesDoc, hD0mem v hv]
  have hfnews : news.filter (matchesDoc doc_id) = news := by
    apply List.filter_eq_self.mpr
    intro v hv
    simp [matchesDoc, (hnewsmem v hv).2]
  have hcap1 : (((D0 ++ news).filter (matchesDoc doc_id))).length ≤ 10000 := by
    rw [List.filter_append, hfD0, hfnews, List.nil_append, buildVectors_length]
    have : (chunks.zip embeddings).length = chunks.length := by
      rw [hemb, List.length_zip, List.length_map, Nat.min_self]
    rw [this]
    exact hchunks
  have h2 := regen_run doc_id firm text embed score
    ⟨D0 ++ news, C0 ++ CR, E0 ++ ER⟩ hne hwf1 hnodup1 hcap1
  have hD1 : (D0 ++ news).filter (fun v => !(matchesDoc doc_id v)) = D0 := by
    rw [List.filter_append]
    have e1 : D0.filter (fun v => !(matchesDoc doc_id v)) = D0 :=
      List.filter_eq_self.mpr (fun v hv => by simp [matchesDoc, hD0mem v hv])
    have e2 : news.filter (fun v => !(matchesDoc doc_id v)) = [] :=
      List.filter_eq_nil_iff.mpr (fun v hv => by simp [matchesDoc, (hnewsmem v hv).2])
    rw [e1, e2, List.append_nil]
  have hC1 : (C0 ++ CR).filter (fun r => r.document_id ≠ doc_id) = C0 := by
    rw [List.filter_append]
    have e1 : C0.filter (fun r : ChunkRow => r.document_id ≠ doc_id) = C0 := by
      apply List.filter_eq_self.mpr
      intro r hr
      rw [hC0] at hr
      exact (List.mem_filter.mp hr).2
    have e2 : CR.filter (fun r : ChunkRow => r.document_id ≠ doc_id) = [] :=
      List.filter_eq_nil_iff.mpr (fun r hr => by
        simp [regenChunkRows_mem doc_id chunks embeddings r hr])
    rw [e1, e2, List.append_nil]
  have hE1 : (E0 ++ ER).filter (fun r => r.document_id ≠ doc_id) = E0 := by
    rw [List.filter_append]
    have e1 : E0.filter (fun r : EmbedRow => r.document_id ≠ doc_id) = E0 := by
      apply List.filter_eq_self.mpr
      intro r hr
      rw [hE0] at hr
      exact (List.mem_filter.mp hr).2
    have e2 : ER.filter (fun r : EmbedRow => r.document_id ≠ doc_id) = [] :=
      List.filter_eq_nil_iff.mpr (fun r hr => by
        simp [regenEmbedRows_mem doc_id chunks embeddings r hr])
    rw [e1, e2, List.append_nil]
  refine ⟨?_, ?_, ?_⟩
  · rw [h1]
    rw [show ({ index := D0 ++ news, chunks := C0 ++ CR, embeds := E0 ++ ER },
        ({ success := true, chunks_count := chunks.length } : RegenResult)).1
      = (⟨D0 ++ news, C0 ++ CR, E0 ++ ER⟩ : DBState) from rfl]
    rw [h2, hD1, hC1, hE1]
  · rw [h1]
  · rw [h1]
    exact hnodup1

/-- Witness for C7 at an empty initial state and a two-word document. -/
theorem regenerate_idempotent_witness :
    ("a b" : String) ≠ ""
    ∧ ((regenerate_embeddings_task "d" (some ("f", "a b")) (fun _ => [1]) score0
          (regenerate_embeddings_task "d" (some ("f", "a b")) (fun _ => [1]) score0
            stEmpty).1)
        = regenerate_embeddings_task "d" (some ("f", "a b")) (fun _ => [1]) score0 stEmpty
      ∧ ((regenerate_embeddings_task "d" (some ("f", "a b")) (fun _ => [1]) score0
            stEmpty).2.chunks_count = (chunk_text "a b" 500 50).length)
      ∧ (((regenerate_embeddings_task "d" (some ("f", "a b")) (fun _ => [1]) score0
            stEmpty).1.index.map PVec.id)).Nodup) :=
  ⟨by decide,
   regenerate_idempotent "d" "f" "a b" (fun _ => [1]) score0 stEmpty
     (by decide) (by simp [stEmpty]) (by simp [stEmpty])
     (by simp [stEmpty]) (by decide)⟩
